import Mathlib

/-!
Verification of the JIT code-emission runtime (`src/Utilities/JIT.h`).

The development shallowly embeds the code-generation helpers of the header:

* `build_get_tsc` — the RDTSC helper — as a straight-line instruction list
  over a register-file state (`Nat → Nat`, register ids to 64-bit values);
* `build_transaction_enter` — the transactional-entry helper — as an emitted
  item list (instructions and label bindings) together with a small-step
  executor over that list;
* `build_function_asm` and `built_function` as state functions over an
  explicit arena state.

The implementations of `jit_runtime::alloc`, `jit_runtime::_release`,
`jit_runtime::_add` and `inline_runtime::_add` are declared but not defined
in the provided sources; where a claim depends on them they are modelled
from the specification, and the corresponding definitions say so in their
doc comments.
-/

namespace JITModel

/-! ### Register ids (x86-64 encoding order) -/

abbrev rax : Nat := 0
abbrev rcx : Nat := 1
abbrev rdx : Nat := 2
abbrev rbx : Nat := 3
abbrev rsi : Nat := 6
abbrev rdi : Nat := 7
abbrev r8 : Nat := 8
abbrev r9 : Nat := 9

/-- Width constants: 2^32 and 2^64. -/
def w32 : Nat := 2 ^ 32

def w64 : Nat := 2 ^ 64

/-! ### Straight-line instructions used by `build_get_tsc` -/

/-- Instructions emitted by `asmjit::build_get_tsc`: register exchange,
the RDTSC read (eax := low half, edx := high half, both zero-extended),
64-bit shift-left by an immediate, 64-bit bitwise or, and a 32-bit
register-to-register move (which zero-extends into the full register). -/
inductive TInstr where
  | xchg (a b : Nat)
  | rdtsc
  | shl (a : Nat) (k : Nat)
  | or_ (a b : Nat)
  | mov32 (a b : Nat)
deriving DecidableEq, Repr

/-- Semantics of one straight-line instruction on a register file.
`tsc` is the synthetic counter value the RDTSC instruction reads. -/
def stepT (tsc : Nat) (s : Nat → Nat) : TInstr → (Nat → Nat)
  | .xchg a b => fun r => if r = a then s b else if r = b then s a else s r
  | .rdtsc => fun r => if r = rax then tsc % w32 else if r = rdx then tsc / w32 else s r
  | .shl a k => fun r => if r = a then (s a <<< k) % w64 else s r
  | .or_ a b => fun r => if r = a then s a ||| s b else s r
  | .mov32 a b => fun r => if r = a then s b % w32 else s r

/-- Run a straight-line instruction list from a register file. -/
def execT (tsc : Nat) (s : Nat → Nat) : List TInstr → (Nat → Nat)
  | [] => s
  | i :: rest => execT tsc (stepT tsc s i) rest

/-- Shallow embedding of `asmjit::build_get_tsc` (JIT.h lines 140-166).
The C++ helper dispatches on whether the destination register is the
canonical `x86::rax` / `x86::rdx` operand (an address comparison on the
canonical register objects, modelled here as register-id equality):

* destination rax: `rdtsc; shl rdx, 32; or rax, rdx`;
* destination rdx: `rdtsc; shl rdx, 32; or rdx, rax`;
* otherwise: `xchg rax, to; rdtsc; shl rdx, 32; xchg rax, to;`
  `mov to.r32, to.r32; or to.r64, rdx`. -/
def build_get_tsc (dst : Nat) : List TInstr :=
  (if dst ≠ rax ∧ dst ≠ rdx then [TInstr.xchg rax dst] else [])
    ++ [TInstr.rdtsc, TInstr.shl rdx 32]
    ++ (if dst = rax then [TInstr.or_ rax rdx]
        else if dst = rdx then [TInstr.or_ rdx rax]
        else [TInstr.xchg rax dst, TInstr.mov32 dst dst, TInstr.or_ dst rdx])

/-- Final register file after running the emitted timestamp-read sequence. -/
def tscOut (tsc : Nat) (s : Nat → Nat) (dst : Nat) : Nat → Nat :=
  execT tsc s (build_get_tsc dst)

/-! ### Bitwise recombination lemmas -/

theorem lor_low_high (a b : Nat) (ha : a < 2 ^ 32) : a ||| (b <<< 32) = b <<< 32 + a := by
  apply Nat.eq_of_testBit_eq
  intro i
  rw [Nat.testBit_lor, Nat.testBit_shiftLeft]
  rw [Nat.shiftLeft_eq, Nat.mul_comm]
  rw [Nat.testBit_mul_pow_two_add b ha i]
  rcases lt_or_le i 32 with h | h
  · simp [h, Nat.not_le.mpr h]
  · rw [Nat.testBit_lt_two_pow (lt_of_lt_of_le ha (Nat.pow_le_pow_right (by norm_num) h))]
    simp [h, Nat.not_lt.mpr h]

theorem lor_recombine (t : Nat) : (t % 2 ^ 32) ||| ((t / 2 ^ 32) <<< 32) = t := by
  rw [lor_low_high _ _ (Nat.mod_lt _ (by norm_num))]
  rw [Nat.shiftLeft_eq]
  have := Nat.div_add_mod t (2 ^ 32)
  omega

theorem shl32_no_overflow (t : Nat) (ht : t < 2 ^ 64) :
    ((t / w32) <<< 32) % w64 = (t / w32) <<< 32 := by
  apply Nat.mod_eq_of_lt
  rw [Nat.shiftLeft_eq]
  show t / 2 ^ 32 * 2 ^ 32 < 2 ^ 64
  exact lt_of_le_of_lt (Nat.div_mul_le_self t (2 ^ 32)) ht

theorem tsc_recombine (t : Nat) (ht : t < w64) :
    t % w32 ||| ((t / w32) <<< 32) % w64 = t := by
  rw [shl32_no_overflow t ht]
  show t % 2 ^ 32 ||| (t / 2 ^ 32) <<< 32 = t
  exact lor_recombine t

end JITModel

namespace JITModel

/-- C1: the claim as stated is false. With destination rbx (neither native
output register) and synthetic counter value `5 * 2^32 + 7`, starting from
the register file `r ↦ 100 + r`, the sequence emitted by `build_get_tsc`
leaves rdx holding `5 * 2^32` (the high half shifted left 32), not its
pre-call contents `102`: the native output register rdx is clobbered, not
restored. -/
theorem C1_rdx_clobbered :
    tscOut (5 * 2 ^ 32 + 7) (fun r => 100 + r) rbx rdx ≠ 100 + rdx := by decide

/-- C1 (amended): for every caller-chosen destination register and every
synthetic 64-bit counter value, the sequence emitted by `build_get_tsc`
leaves the destination holding the full 64-bit counter value, and leaves
every general-purpose register other than the destination and the two
native counter output registers (rax, rdx) equal to its pre-call contents;
when the destination is neither native output register, rax (the register
the helper spills into) is restored to its pre-call contents while rdx is
left holding the high counter half shifted into the upper 32 bits. -/
theorem build_get_tsc_correct (dst tsc : Nat) (s : Nat → Nat) (htsc : tsc < w64) :
    tscOut tsc s dst dst = tsc
    ∧ (∀ r, r ≠ dst → r ≠ rax → r ≠ rdx → tscOut tsc s dst r = s r)
    ∧ (dst ≠ rax → dst ≠ rdx →
        tscOut tsc s dst rax = s rax ∧ tscOut tsc s dst rdx = (tsc / w32) <<< 32) := by
  rcases eq_or_ne dst rax with h0 | h0
  · subst h0
    refine ⟨?_, ?_, ?_⟩
    · simp [tscOut, build_get_tsc, execT, stepT]
      exact tsc_recombine tsc htsc
    · intro r hr h1 h2
      simp [tscOut, build_get_tsc, execT, stepT, h1, h2]
    · intro h; exact absurd rfl h
  rcases eq_or_ne dst rdx with h2 | h2
  · subst h2
    refine ⟨?_, ?_, ?_⟩
    · simp [tscOut, build_get_tsc, execT, stepT]
      rw [Nat.lor_comm]
      exact tsc_recombine tsc htsc
    · intro r hr h1 h2
      simp [tscOut, build_get_tsc, execT, stepT, h1, h2]
    · intro _ h; exact absurd rfl h
  · have h0' : (rax : Nat) ≠ dst := fun h => h0 h.symm
    have h2' : (rdx : Nat) ≠ dst := fun h => h2 h.symm
    refine ⟨?_, ?_, fun _ _ => ⟨?_, ?_⟩⟩
    · simp [tscOut, build_get_tsc, execT, stepT, h0, h2, h0', h2']
      exact tsc_recombine tsc htsc
    · intro r hr h1 hr2
      have hr' : r ≠ dst := hr
      simp [tscOut, build_get_tsc, execT, stepT, h0, h2, h0', h2', h1, hr2, hr']
    · simp [tscOut, build_get_tsc, execT, stepT, h0, h2, h0', h2']
    · simp [tscOut, build_get_tsc, execT, stepT, h0, h2, h0', h2', shl32_no_overflow tsc htsc]

/-- C1 witness: the amended theorem applied at destination rbx, counter
value `5 * 2^32 + 7` (which satisfies the 64-bit bound) and the register
file `r ↦ 100 + r`: the destination ends up holding the full value. -/
theorem build_get_tsc_correct_witness :
    5 * 2 ^ 32 + 7 < w64 ∧ tscOut (5 * 2 ^ 32 + 7) (fun r => 100 + r) rbx rbx = 5 * 2 ^ 32 + 7 :=
  ⟨by decide, (build_get_tsc_correct rbx (5 * 2 ^ 32 + 7) (fun r => 100 + r) (by decide)).1⟩

/-! ### Emitted items and executor for `build_transaction_enter` -/

/-- Instructions relevant to the transactional-entry helper: unconditional
jump to a label, `test eax, eax`, conditional jump-if-zero, a marker
standing for the first instruction the user fallback callback emits, code
alignment, and the transaction-begin instruction (which the helper must
never emit). -/
inductive EInstr where
  | jmp (l : Nat)
  | testEax
  | jz (l : Nat)
  | mark (n : Nat)
  | alignCode
  | xbegin (l : Nat)
deriving DecidableEq, Repr

/-- One emitted item: an instruction or the binding of a label. -/
inductive EItem where
  | instr (i : EInstr)
  | label (l : Nat)
deriving DecidableEq, Repr

/-- Index of the binding of label `l` in an emitted item list, if bound. -/
def findLabel : List EItem → Nat → Option Nat
  | [], _ => none
  | EItem.label l' :: rest, l =>
    if l' = l then some 0 else (findLabel rest l).map (· + 1)
  | _ :: rest, l => (findLabel rest l).map (· + 1)

/-- Result of running emitted code: control left through a label that is
not bound in the item list (an external label such as the caller's
fallback), execution reached the user callback's marker, execution fell
off the end, or the step budget ran out. -/
inductive Outcome where
  | external (l : Nat)
  | markHit (n : Nat)
  | fellOff
  | outOfFuel
deriving DecidableEq, Repr

/-- Small-step executor over an emitted item list. State: fuel, program
counter (an index into the list), the zero flag, and the value of eax
(the abort-status register). -/
def execE (p : List EItem) : Nat → Nat → Bool → Nat → Outcome
  | 0, _, _, _ => Outcome.outOfFuel
  | fuel + 1, pc, zf, eax =>
    match p.get? pc with
    | none => Outcome.fellOff
    | some (EItem.label _) => execE p fuel (pc + 1) zf eax
    | some (EItem.instr i) =>
      match i with
      | EInstr.jmp l =>
        match findLabel p l with
        | some j => execE p fuel j zf eax
        | none => Outcome.external l
      | EInstr.testEax => execE p fuel (pc + 1) (eax == 0) eax
      | EInstr.jz l =>
        if zf then
          match findLabel p l with
          | some j => execE p fuel j zf eax
          | none => Outcome.external l
        else execE p fuel (pc + 1) zf eax
      | EInstr.mark n => Outcome.markHit n
      | EInstr.alignCode => execE p fuel (pc + 1) zf eax
      | EInstr.xbegin _ => execE p fuel (pc + 1) zf eax

/-- Shallow embedding of `asmjit::build_transaction_enter` (JIT.h lines
104-125). `counter` is the next fresh label id (the helper allocates
`fall = counter` and `begin = counter + 1`), `fallback` is the caller's
external fallback label, and `payload` is the item sequence the user
fallback callback emits when invoked. Emits `jmp begin`, binds the landing
pad `fall`, emits `test eax, eax; jz fallback`, runs the callback once,
aligns, binds `begin`, and returns the landing-pad label. Result:
(emitted items, returned label, next fresh label id). -/
def build_transaction_enter (counter fallback : Nat) (payload : List EItem) :
    List EItem × Nat × Nat :=
  ([EItem.instr (EInstr.jmp (counter + 1)), EItem.label counter,
    EItem.instr EInstr.testEax, EItem.instr (EInstr.jz fallback)]
    ++ payload
    ++ [EItem.instr EInstr.alignCode, EItem.label (counter + 1)],
   counter, counter + 2)

/-- Number of user-callback markers in an emitted item list. -/
def countMarks : List EItem → Nat
  | [] => 0
  | EItem.instr (EInstr.mark _) :: rest => countMarks rest + 1
  | _ :: rest => countMarks rest

/-- Number of transaction-begin instructions in an emitted item list. -/
def countXbegin : List EItem → Nat
  | [] => 0
  | EItem.instr (EInstr.xbegin _) :: rest => countXbegin rest + 1
  | _ :: rest => countXbegin rest

theorem countMarks_append (a b : List EItem) :
    countMarks (a ++ b) = countMarks a + countMarks b := by
  induction a with
  | nil => simp [countMarks]
  | cons x rest ih =>
    cases x with
    | instr i => cases i <;> simp [countMarks, ih]; omega
    | label l => simp [countMarks, ih]

theorem countXbegin_append (a b : List EItem) :
    countXbegin (a ++ b) = countXbegin a + countXbegin b := by
  induction a with
  | nil => simp [countXbegin]
  | cons x rest ih =>
    cases x with
    | instr i => cases i <;> simp [countXbegin, ih]; omega
    | label l => simp [countXbegin, ih]

/-- Emitted program of the transactional-entry helper when the user
fallback callback emits exactly the marker `n`. -/
def txnProg (counter fallback n : Nat) : List EItem :=
  (build_transaction_enter counter fallback [EItem.instr (EInstr.mark n)]).1

/-- C2: starting at the landing pad (item index 1, where the returned
label is bound), with the abort-status register eax holding zero, control
leaves through the caller's external fallback label and the user
callback's marker is never reached; with eax non-zero, execution reaches
the user callback's marker. Moreover, for every payload the user callback
may emit, the emitted program contains the payload's markers exactly once
(the helper itself adds none), reflecting that the callback is invoked
exactly once during emission. -/
theorem build_transaction_enter_pad (counter fallback n eax : Nat) (zf : Bool)
    (hf1 : fallback ≠ counter) (hf2 : fallback ≠ counter + 1) :
    (eax = 0 → execE (txnProg counter fallback n) 8 1 zf eax = Outcome.external fallback)
    ∧ (eax ≠ 0 → execE (txnProg counter fallback n) 8 1 zf eax = Outcome.markHit n)
    ∧ (∀ payload : List EItem,
        countMarks (build_transaction_enter counter fallback payload).1 = countMarks payload) := by
  have hc1 : counter ≠ fallback := Ne.symm hf1
  have hc2 : counter + 1 ≠ fallback := Ne.symm hf2
  refine ⟨?_, ?_, ?_⟩
  · intro h
    subst h
    simp [txnProg, build_transaction_enter, execE, findLabel, hc1, hc2]
  · intro h
    simp [txnProg, build_transaction_enter, execE, findLabel, hc1, hc2, h]
  · intro payload
    simp [build_transaction_enter, countMarks_append, countMarks]

/-- C2 witness: the theorem applied at counter id 10, fallback label 5
(distinct from both fresh labels) and marker 0: with eax = 0 control
leaves through the external fallback label, and with eax = 1 the user
callback's marker is reached. -/
theorem build_transaction_enter_pad_witness :
    (5 ≠ 10 ∧ 5 ≠ 11)
    ∧ execE (txnProg 10 5 0) 8 1 false 0 = Outcome.external 5
    ∧ execE (txnProg 10 5 0) 8 1 false 1 = Outcome.markHit 0 :=
  ⟨⟨by decide, by decide⟩,
   (build_transaction_enter_pad 10 5 0 0 false (by decide) (by decide)).1 rfl,
   (build_transaction_enter_pad 10 5 0 1 false (by decide) (by decide)).2.1 (by decide)⟩

/-- C6: the transactional-entry helper's emitted sequence begins with an
unconditional jump to the start label, the start label is bound at the
very end of the sequence (past the landing pad), the helper emits no
transaction-begin instruction beyond whatever the payload contains, the
returned label is the landing-pad label bound at item index 1, and the
abort-status test immediately follows the landing pad. -/
theorem build_transaction_enter_structure (counter fallback : Nat) (payload : List EItem) :
    (build_transaction_enter counter fallback payload).1.head?
      = some (EItem.instr (EInstr.jmp (counter + 1)))
    ∧ (build_transaction_enter counter fallback payload).1.getLast?
      = some (EItem.label (counter + 1))
    ∧ countXbegin (build_transaction_enter counter fallback payload).1 = countXbegin payload
    ∧ (build_transaction_enter counter fallback payload).2.1 = counter
    ∧ (build_transaction_enter counter fallback payload).1.get? 1 = some (EItem.label counter)
    ∧ (build_transaction_enter counter fallback payload).1.get? 2
      = some (EItem.instr EInstr.testEax) := by
  refine ⟨rfl, ?_, ?_, rfl, rfl, rfl⟩
  · have h : (build_transaction_enter counter fallback payload).1
        = ([EItem.instr (EInstr.jmp (counter + 1)), EItem.label counter,
            EItem.instr EInstr.testEax, EItem.instr (EInstr.jz fallback)]
            ++ payload ++ [EItem.instr EInstr.alignCode]) ++ [EItem.label (counter + 1)] := by
      simp [build_transaction_enter]
    rw [h]
    exact List.getLast?_concat _
  · simp [build_transaction_enter, countXbegin_append, countXbegin]

/-! ### Arena partition model -/

/-- Record of one committed sub-allocation in a partition's log:
start address, length, requested alignment, executable flag. -/
structure AllocRec where
  start : Nat
  len : Nat
  align : Nat
  exec : Bool
deriving DecidableEq, Repr

/-- State of one arena partition: fixed base address and capacity, the
current bump offset, and the log of committed sub-allocations. -/
structure Arena where
  base : Nat
  capacity : Nat
  offset : Nat
  log : List AllocRec
deriving DecidableEq, Repr

/-- Freshly created partition: bump offset zero, empty log. -/
def Arena.fresh (base capacity : Nat) : Arena :=
  ⟨base, capacity, 0, []⟩

/-- Round `n` up to the next multiple of `a` (for `a = 0` this is `n`). -/
def alignUp (n a : Nat) : Nat :=
  n + (a - n % a) % a

theorem alignUp_ge (n a : Nat) : n ≤ alignUp n a :=
  Nat.le_add_right n _

theorem alignUp_mod (n a : Nat) (ha : 0 < a) : alignUp n a % a = 0 := by
  unfold alignUp
  rcases Nat.eq_zero_or_pos (n % a) with h | h
  · rw [h, Nat.sub_zero, Nat.mod_self, Nat.add_zero]
    exact h
  · have hlt : n % a < a := Nat.mod_lt _ ha
    have hsub : (a - n % a) % a = a - n % a :=
      Nat.mod_eq_of_lt (by omega)
    have hdm := Nat.div_add_mod n a
    have heq : n + (a - n % a) % a = a * (n / a) + a := by
      rw [hsub]; omega
    rw [heq, ← Nat.mul_succ]
    exact Nat.mul_mod_right a _

/-- Modelled from the spec: the implementation of `jit_runtime::alloc`
(declared at JIT.h line 65 with comment "Allocate memory") is not among
the provided sources. Per the specification (spec §4.1) it is a bump
allocation inside a partition of fixed base and capacity: the returned
address is the current bump position rounded up to the requested
alignment; the call fails, returning no address (`OutOfSpace`), exactly
when the aligned request would exceed the fixed capacity; on success it
returns the aligned address, advances the bump offset and appends the
allocation to the committed log. -/
def jit_alloc (ar : Arena) (size align : Nat) (ex : Bool) : Option (Nat × Arena) :=
  if alignUp (ar.base + ar.offset) align + size ≤ ar.base + ar.capacity then
    some (alignUp (ar.base + ar.offset) align,
      { ar with offset := alignUp (ar.base + ar.offset) align + size - ar.base,
                log := ar.log ++ [⟨alignUp (ar.base + ar.offset) align, size, align, ex⟩] })
  else
    none

/-- Modelled from the spec and from the declaration's own comment (JIT.h
lines 61-62: "Do nothing (deallocation is delayed)"): `jit_runtime::_release`
performs no physical deallocation and leaves the partition state
unchanged. -/
def jit_release (ar : Arena) (_p : Nat) : Arena :=
  ar

/-- One allocation request: size, alignment, executable flag. -/
structure AllocReq where
  size : Nat
  align : Nat
  ex : Bool
deriving DecidableEq, Repr

/-- Run a sequence of allocation requests against a partition, collecting
the per-call results. -/
def runAllocs : Arena → List AllocReq → List (Option Nat) × Arena
  | ar, [] => ([], ar)
  | ar, req :: rest =>
    match jit_alloc ar req.size req.align req.ex with
    | none =>
      let out := runAllocs ar rest
      (none :: out.1, out.2)
    | some (a, ar1) =>
      let out := runAllocs ar1 rest
      (some a :: out.1, out.2)

/-- Partition invariant: the bump offset never exceeds the capacity, every
committed allocation is aligned and lies between the base and the bump
position, and the log is ordered with pairwise non-overlapping blocks. -/
def ArenaInv (ar : Arena) : Prop :=
  ar.offset ≤ ar.capacity
  ∧ (∀ e ∈ ar.log, e.start % e.align = 0
      ∧ ar.base ≤ e.start ∧ e.start + e.len ≤ ar.base + ar.offset)
  ∧ ar.log.Pairwise (fun a b => a.start + a.len ≤ b.start)

theorem ArenaInv.fresh (base capacity : Nat) : ArenaInv (Arena.fresh base capacity) := by
  refine ⟨Nat.zero_le _, ?_, ?_⟩ <;> simp [Arena.fresh]

theorem jit_alloc_preserves (ar : Arena) (size align : Nat) (ex : Bool)
    (ha : 0 < align) (hinv : ArenaInv ar) (a : Nat) (ar' : Arena)
    (h : jit_alloc ar size align ex = some (a, ar')) :
    ArenaInv ar' ∧ a = alignUp (ar.base + ar.offset) align
      ∧ ar'.base = ar.base ∧ ar'.capacity = ar.capacity
      ∧ ar'.log = ar.log ++ [⟨a, size, align, ex⟩]
      ∧ ar.offset ≤ ar'.offset := by
  obtain ⟨hcap, hlog, hpair⟩ := hinv
  unfold jit_alloc at h
  by_cases hle : alignUp (ar.base + ar.offset) align + size ≤ ar.base + ar.capacity
  · rw [if_pos hle] at h
    simp only [Option.some.injEq, Prod.mk.injEq] at h
    obtain ⟨rfl, rfl⟩ := h
    have hge : ar.base + ar.offset ≤ alignUp (ar.base + ar.offset) align := alignUp_ge _ _
    refine ⟨⟨?_, ?_, ?_⟩, rfl, rfl, rfl, rfl, ?_⟩
    · show alignUp (ar.base + ar.offset) align + size - ar.base ≤ ar.capacity
      omega
    · show ∀ e ∈ ar.log ++ [⟨alignUp (ar.base + ar.offset) align, size, align, ex⟩],
        e.start % e.align = 0 ∧ ar.base ≤ e.start
          ∧ e.start + e.len ≤ ar.base + (alignUp (ar.base + ar.offset) align + size - ar.base)
      intro e he
      rcases List.mem_append.mp he with hmem | hmem
      · obtain ⟨h1, h2, h3⟩ := hlog e hmem
        exact ⟨h1, h2, by omega⟩
      · simp only [List.mem_singleton] at hmem
        subst hmem
        exact ⟨alignUp_mod _ _ ha, by show ar.base ≤ alignUp (ar.base + ar.offset) align; omega,
          by show alignUp (ar.base + ar.offset) align + size
              ≤ ar.base + (alignUp (ar.base + ar.offset) align + size - ar.base); omega⟩
    · show (ar.log ++ [(⟨alignUp (ar.base + ar.offset) align, size, align, ex⟩ : AllocRec)]).Pairwise
        (fun a b : AllocRec => a.start + a.len ≤ b.start)
      refine List.pairwise_append.mpr ⟨hpair, List.pairwise_singleton .., ?_⟩
      intro e he b hb
      simp only [List.mem_singleton] at hb
      subst hb
      have := (hlog e he).2.2
      show e.start + e.len ≤ alignUp (ar.base + ar.offset) align
      omega
    · show ar.offset ≤ alignUp (ar.base + ar.offset) align + size - ar.base
      omega
  · rw [if_neg hle] at h
    exact absurd h (by simp)

theorem runAllocs_preserves (reqs : List AllocReq) (ar : Arena)
    (hal : ∀ r ∈ reqs, 0 < r.align) (hinv : ArenaInv ar) :
    ArenaInv (runAllocs ar reqs).2
      ∧ (runAllocs ar reqs).2.base = ar.base
      ∧ (runAllocs ar reqs).2.capacity = ar.capacity
      ∧ (∃ pre : List AllocRec, (runAllocs ar reqs).2.log = ar.log ++ pre) := by
  induction reqs generalizing ar with
  | nil => exact ⟨hinv, rfl, rfl, [], by simp [runAllocs]⟩
  | cons req rest ih =>
    unfold runAllocs
    cases hcall : jit_alloc ar req.size req.align req.ex with
    | none =>
      simpa using ih ar (fun r hr => hal r (List.mem_cons_of_mem _ hr)) hinv
    | some pair =>
      obtain ⟨hinv', _, hbase, hcapa, hlogeq, _⟩ :=
        jit_alloc_preserves ar req.size req.align req.ex
          (hal req (List.mem_cons_self _ _)) hinv pair.1 pair.2 (by rw [hcall])
      obtain ⟨hi, hb, hc, pre, hl⟩ := ih pair.2 (fun r hr => hal r (List.mem_cons_of_mem _ hr)) hinv'
      exact ⟨hi, by simpa [hbase] using hb, by simpa [hcapa] using hc,
        ⟨⟨pair.1, req.size, req.align, req.ex⟩ :: pre, by simp [hl, hlogeq]⟩⟩

/-- C4: for every sequence of allocation calls against one fresh partition
(all alignments positive), every committed allocation's address is a
multiple of its requested alignment and the block lies inside the
partition's fixed base/capacity bounds; the log is ordered with pairwise
non-overlapping blocks (memory is never wrapped or reused); a call fails,
returning no address, exactly when the aligned request would exceed the
fixed capacity; and every successful call returns precisely the address
it commits to the log. -/
theorem jit_alloc_spec (base cap : Nat) (reqs : List AllocReq)
    (hal : ∀ r ∈ reqs, 0 < r.align) :
    (∀ e ∈ (runAllocs (Arena.fresh base cap) reqs).2.log,
        e.start % e.align = 0 ∧ base ≤ e.start ∧ e.start + e.len ≤ base + cap)
    ∧ (runAllocs (Arena.fresh base cap) reqs).2.log.Pairwise
        (fun a b => a.start + a.len ≤ b.start)
    ∧ (∀ (ar : Arena) (size align : Nat) (ex : Bool),
        jit_alloc ar size align ex = none ↔
          ar.base + ar.capacity < alignUp (ar.base + ar.offset) align + size)
    ∧ (∀ (ar : Arena) (size align : Nat) (ex : Bool) (a : Nat) (ar' : Arena),
        jit_alloc ar size align ex = some (a, ar') →
          a = alignUp (ar.base + ar.offset) align
          ∧ ar'.log = ar.log ++ [⟨a, size, align, ex⟩]) := by
  obtain ⟨⟨hcap, hlog, hpair⟩, hbase, hcapa, -⟩ :=
    runAllocs_preserves reqs (Arena.fresh base cap) hal (ArenaInv.fresh base cap)
  have hbase' : (runAllocs (Arena.fresh base cap) reqs).2.base = base := hbase
  have hcapa' : (runAllocs (Arena.fresh base cap) reqs).2.capacity = cap := hcapa
  refine ⟨?_, hpair, ?_, ?_⟩
  · intro e he
    obtain ⟨h1, h2, h3⟩ := hlog e he
    rw [hbase'] at h2 h3
    rw [hcapa'] at hcap
    exact ⟨h1, h2, by omega⟩
  · intro ar size align ex
    unfold jit_alloc
    by_cases hle : alignUp (ar.base + ar.offset) align + size ≤ ar.base + ar.capacity
    · rw [if_pos hle]
      exact iff_of_false (by simp) (by omega)
    · rw [if_neg hle]
      exact iff_of_true rfl (by omega)
  · intro ar size align ex a ar' h
    unfold jit_alloc at h
    by_cases hle : alignUp (ar.base + ar.offset) align + size ≤ ar.base + ar.capacity
    · rw [if_pos hle] at h
      simp only [Option.some.injEq, Prod.mk.injEq] at h
      obtain ⟨rfl, rfl⟩ := h
      exact ⟨rfl, rfl⟩
    · rw [if_neg hle] at h
      exact absurd h (by simp)

/-- C4 witness: the theorem applied to two aligned requests (64 bytes at
alignment 16, then 100 bytes at alignment 32) on a fresh partition at
base 1000 with capacity 4096; the second committed block starts at the
aligned address 1088 and both blocks are in bounds and disjoint. -/
theorem jit_alloc_spec_witness :
    (∀ r ∈ [AllocReq.mk 64 16 true, AllocReq.mk 100 32 false], 0 < r.align)
    ∧ ∀ e ∈ (runAllocs (Arena.fresh 1000 4096)
        [AllocReq.mk 64 16 true, AllocReq.mk 100 32 false]).2.log,
        e.start % e.align = 0 ∧ 1000 ≤ e.start ∧ e.start + e.len ≤ 1000 + 4096 :=
  ⟨by decide,
   (jit_alloc_spec 1000 4096 [AllocReq.mk 64 16 true, AllocReq.mk 100 32 false]
      (by decide)).1⟩

/-- C5: `jit_runtime::_release` leaves the partition state unchanged (a
logical no-op), and for every allocation of positive length previously
committed by a sequence of calls on a fresh partition, releasing its
address and immediately allocating again (any request) never returns that
same address: the bump position is already strictly past it, so memory is
not reused before finalize. -/
theorem jit_release_no_reuse (base cap : Nat) (reqs : List AllocReq)
    (hal : ∀ r ∈ reqs, 0 < r.align) :
    (∀ (ar : Arena) (p : Nat), jit_release ar p = ar)
    ∧ (∀ e ∈ (runAllocs (Arena.fresh base cap) reqs).2.log, 0 < e.len →
        ∀ (size align : Nat) (ex : Bool) (a : Nat) (ar' : Arena),
          jit_alloc (jit_release (runAllocs (Arena.fresh base cap) reqs).2 e.start)
              size align ex = some (a, ar') → a ≠ e.start) := by
  refine ⟨fun ar p => rfl, ?_⟩
  intro e he hlen size align ex a ar' h
  obtain ⟨⟨hcap, hlog, hpair⟩, hbase, hcapa, -⟩ :=
    runAllocs_preserves reqs (Arena.fresh base cap) hal (ArenaInv.fresh base cap)
  set arf := (runAllocs (Arena.fresh base cap) reqs).2
  have hbound := (hlog e he).2.2
  have hge : arf.base + arf.offset ≤ a := by
    unfold jit_alloc jit_release at h
    by_cases hle : alignUp (arf.base + arf.offset) align + size ≤ arf.base + arf.capacity
    · rw [if_pos hle] at h
      simp only [Option.some.injEq, Prod.mk.injEq] at h
      obtain ⟨rfl, -⟩ := h
      exact alignUp_ge _ _
    · rw [if_neg hle] at h
      exact absurd h (by simp)
  omega

/-- C5 witness: after one 8-byte allocation on a fresh partition, the
committed block at address 100 has positive length, and releasing then
allocating 8 bytes again returns 108, not 100. -/
theorem jit_release_no_reuse_witness :
    (∀ r ∈ [AllocReq.mk 8 4 true], 0 < r.align)
    ∧ ∀ e ∈ (runAllocs (Arena.fresh 100 64) [AllocReq.mk 8 4 true]).2.log, 0 < e.len →
        ∀ (size align : Nat) (ex : Bool) (a : Nat) (ar' : Arena),
          jit_alloc (jit_release (runAllocs (Arena.fresh 100 64) [AllocReq.mk 8 4 true]).2 e.start)
              size align ex = some (a, ar') → a ≠ e.start :=
  ⟨by decide, (jit_release_no_reuse 100 64 [AllocReq.mk 8 4 true] (by decide)).2⟩

/-! ### Code emission sessions -/

/-- Outcome of one build attempt: the encoder reported an error (in the
source an `ensure` failure standing for the spec's `EncodingError`), the
runtime add step failed and a null function pointer is returned, or the
build succeeded at an address. -/
inductive BuildResult where
  | encodingError
  | nullPtr
  | ok (addr : Nat)
deriving DecidableEq, Repr

/-- Compiled-function record handed to the symbol sink by `jit_announce`. -/
structure AnnounceRec where
  addr : Nat
  size : Nat
  name : String
deriving DecidableEq, Repr

/-- Calling-convention argument registers selected by `build_function_asm`
(JIT.h lines 181-192) and by the `built_function` constructor (lines
259-270): rcx, rdx, r8, r9 when building for Windows, and rdi, rsi, rdx,
rcx otherwise, in argument order. -/
def build_args (isWin : Bool) : List Nat :=
  if isWin then [rcx, rdx, r8, r9] else [rdi, rsi, rdx, rcx]

/-- Shallow embedding of `build_function_asm` (JIT.h lines 170-207). The
builder callback is abstracted by its observable outcome: applied to the
argument-register array it yields the encoder's last-error value and the
encoded code size. A non-zero last error after the callback returns fails
the build (the `ensure` on line 196) before any arena request is made.
Otherwise the runtime add step draws memory from the global arena
(modelled from the spec: the implementation of `jit_runtime::_add` is not
among the provided sources; per spec §4.2 it requests memory of the
encoded length at the platform code alignment from the arena); if that
fails the function returns a null pointer without announcing, and on
success `jit_announce` records the compiled-function record before the
address is returned. Result: (build result, final arena, announced
records). -/
def build_function_asm (isWin : Bool) (builder : List Nat → Nat × Nat)
    (codeAlign : Nat) (name : String) (ar : Arena) :
    BuildResult × Arena × List AnnounceRec :=
  if (builder (build_args isWin)).1 ≠ 0 then
    (BuildResult.encodingError, ar, [])
  else
    match jit_alloc ar (builder (build_args isWin)).2 codeAlign true with
    | none => (BuildResult.nullPtr, ar, [])
    | some (a, ar') => (BuildResult.ok a, ar', [⟨a, (builder (build_args isWin)).2, name⟩])

/-- C3: whenever the encoder reports a non-zero last error after the
builder callback returns, the build fails with the encoding-error outcome,
the arena's committed-allocation state (bump offset and log) is unchanged,
and nothing is announced: a failed build performs no arena allocation. -/
theorem build_function_asm_encoding_error (isWin : Bool) (builder : List Nat → Nat × Nat)
    (codeAlign : Nat) (name : String) (ar : Arena)
    (herr : (builder (build_args isWin)).1 ≠ 0) :
    build_function_asm isWin builder codeAlign name ar = (BuildResult.encodingError, ar, []) := by
  unfold build_function_asm
  rw [if_pos herr]

/-- C3 witness: a builder whose encoder reports last error 7 fails with
the encoding-error outcome and leaves a fresh arena untouched. -/
theorem build_function_asm_encoding_error_witness :
    (((fun _ => (7, 100)) : List Nat → Nat × Nat) (build_args false)).1 ≠ 0
    ∧ build_function_asm false (fun _ => (7, 100)) 16 "f" (Arena.fresh 0 4096)
      = (BuildResult.encodingError, Arena.fresh 0 4096, []) :=
  ⟨by decide,
   build_function_asm_encoding_error false (fun _ => (7, 100)) 16 "f" (Arena.fresh 0 4096)
     (by decide)⟩

/-- C7: `build_function_asm` exposes to the builder callback exactly the
platform calling convention's first four integer argument registers, in
argument order — rcx, rdx, r8, r9 on Windows and rdi, rsi, rdx, rcx
otherwise — and the build depends on the callback only through its
behaviour on that fixed register array. -/
theorem build_function_asm_args :
    build_args true = [rcx, rdx, r8, r9]
    ∧ build_args false = [rdi, rsi, rdx, rcx]
    ∧ (∀ (isWin : Bool) (b1 b2 : List Nat → Nat × Nat) (codeAlign : Nat)
        (name : String) (ar : Arena),
        b1 (build_args isWin) = b2 (build_args isWin) →
        build_function_asm isWin b1 codeAlign name ar
          = build_function_asm isWin b2 codeAlign name ar) := by
  refine ⟨rfl, rfl, ?_⟩
  intro isWin b1 b2 codeAlign name ar h
  unfold build_function_asm
  rw [h]

/-- C7 witness: two builders agreeing on the non-Windows argument-register
array [rdi, rsi, rdx, rcx] produce identical builds. -/
theorem build_function_asm_args_witness :
    (((fun _ => (0, 32)) : List Nat → Nat × Nat) (build_args false)
        = ((fun l => (0, 8 * l.length)) : List Nat → Nat × Nat) (build_args false))
    ∧ build_function_asm false (fun _ => (0, 32)) 16 "g" (Arena.fresh 0 4096)
      = build_function_asm false (fun l => (0, 8 * l.length)) 16 "g" (Arena.fresh 0 4096) :=
  ⟨by decide,
   build_function_asm_args.2.2 false (fun _ => (0, 32)) (fun l => (0, 8 * l.length))
     16 "g" (Arena.fresh 0 4096) (by decide)⟩

/-- C9: when the encoder is clean but the runtime add step fails (the
arena allocation yields no address), `build_function_asm` returns the
null-pointer outcome, the arena is unchanged and no compiled-function
record is announced; and on the success path the record is announced
(exactly one record, carrying the returned address, the code size and the
name) together with the returned address. -/
theorem build_function_asm_add_fail (isWin : Bool) (builder : List Nat → Nat × Nat)
    (codeAlign : Nat) (name : String) (ar : Arena)
    (hok : (builder (build_args isWin)).1 = 0) :
    (jit_alloc ar (builder (build_args isWin)).2 codeAlign true = none →
      build_function_asm isWin builder codeAlign name ar = (BuildResult.nullPtr, ar, []))
    ∧ (∀ (a : Nat) (ar' : Arena),
        jit_alloc ar (builder (build_args isWin)).2 codeAlign true = some (a, ar') →
        build_function_asm isWin builder codeAlign name ar
          = (BuildResult.ok a, ar', [⟨a, (builder (build_args isWin)).2, name⟩])) := by
  constructor
  · intro hnone
    unfold build_function_asm
    rw [if_neg (by simp [hok]), hnone]
  · intro a ar' hsome
    unfold build_function_asm
    rw [if_neg (by simp [hok]), hsome]

/-- C9 witness: with a clean encoder and a 100-byte function against a
16-byte arena, the add step fails and the build returns the null-pointer
outcome with nothing announced. -/
theorem build_function_asm_add_fail_witness :
    (((fun _ => (0, 100)) : List Nat → Nat × Nat) (build_args false)).1 = 0
    ∧ jit_alloc (Arena.fresh 0 16) 100 16 true = none
    ∧ build_function_asm false (fun _ => (0, 100)) 16 "h" (Arena.fresh 0 16)
      = (BuildResult.nullPtr, Arena.fresh 0 16, []) :=
  ⟨by decide, by decide,
   (build_function_asm_add_fail false (fun _ => (0, 100)) 16 "h" (Arena.fresh 0 16)
     (by decide)).1 (by decide)⟩

/-- Modelled from the spec: the implementation of `inline_runtime::_add`
(declared at JIT.h line 96) is not among the provided sources. Per spec
§4.3 the inline runtime places the encoded bytes relative to the start of
the caller-owned fixed-capacity block (offset 0) and fails with
`EncodingError` when the encoded size exceeds the block's capacity,
never growing the block. -/
def inline_add (blockSize codeSize : Nat) : Option Nat :=
  if codeSize ≤ blockSize then some 0 else none

/-- Shallow embedding of the `built_function` constructor (JIT.h lines
248-285, the branch that owns an inline fixed-capacity block). It runs the
same builder protocol as `build_function_asm` but against an inline
runtime over the caller-owned block of `blockSize` bytes: when the encoder
reports an error or the inline add step fails the build fails (the
`ensure(false)` on line 279, standing for the spec's `EncodingError`);
otherwise the code is placed at the block's start and announced. The
shared arena is threaded through unchanged to make explicit that this
component never allocates from it. Result: (build result as an offset
into the block, shared arena, announced records). -/
def built_function (isWin : Bool) (builder : List Nat → Nat × Nat)
    (blockSize : Nat) (name : String) (ar : Arena) :
    BuildResult × Arena × List AnnounceRec :=
  if (builder (build_args isWin)).1 ≠ 0 then
    (BuildResult.encodingError, ar, [])
  else
    match inline_add blockSize (builder (build_args isWin)).2 with
    | none => (BuildResult.encodingError, ar, [])
    | some off => (BuildResult.ok off, ar, [⟨off, (builder (build_args isWin)).2, name⟩])

/-- C8: a build through the inline local buffer fails with the
encoding-error outcome whenever the encoded size exceeds the block's
capacity (the block is never grown); when it fits (and the encoder is
clean) the code is placed at offset 0 relative to the block's start; and
in every case the shared arena is left completely unchanged. -/
theorem built_function_spec (isWin : Bool) (builder : List Nat → Nat × Nat)
    (blockSize : Nat) (name : String) (ar : Arena)
    (hok : (builder (build_args isWin)).1 = 0) :
    (blockSize < (builder (build_args isWin)).2 →
      built_function isWin builder blockSize name ar = (BuildResult.encodingError, ar, []))
    ∧ ((builder (build_args isWin)).2 ≤ blockSize →
      built_function isWin builder blockSize name ar
        = (BuildResult.ok 0, ar, [⟨0, (builder (build_args isWin)).2, name⟩]))
    ∧ (built_function isWin builder blockSize name ar).2.1 = ar := by
  refine ⟨?_, ?_, ?_⟩
  · intro hbig
    unfold built_function inline_add
    rw [if_neg (by simp [hok]), if_neg (by omega)]
  · intro hfit
    unfold built_function inline_add
    rw [if_neg (by simp [hok]), if_pos hfit]
  · unfold built_function inline_add
    rcases Nat.eq_zero_or_pos ((builder (build_args isWin)).1) with h | h
    · rw [if_neg (by simp [h])]
      by_cases hfit : (builder (build_args isWin)).2 ≤ blockSize
      · rw [if_pos hfit]
      · rw [if_neg hfit]
    · rw [if_pos (by omega)]

/-- C8 witness: a builder that encodes 5000 bytes overflows a 4096-byte
block and fails with the encoding-error outcome, with the shared arena
untouched. -/
theorem built_function_spec_witness :
    (((fun _ => (0, 5000)) : List Nat → Nat × Nat) (build_args false)).1 = 0
    ∧ (4096 < 5000)
    ∧ built_function false (fun _ => (0, 5000)) 4096 "t" (Arena.fresh 0 64)
      = (BuildResult.encodingError, Arena.fresh 0 64, []) :=
  ⟨by decide, by decide,
   (built_function_spec false (fun _ => (0, 5000)) 4096 "t" (Arena.fresh 0 64)
     (by decide)).1 (by decide)⟩

end JITModel
